import Mathlib

/-!
Verification of the audio preprocessing & voice-activity engine of
`whispr-clone` (`src/main.cpp`, class `AudioProcessor`).

The C++ code is shallowly embedded over `ℚ`: single-precision floats are
modelled as exact rationals, `std::vector<float>` as `List ℚ`, the C++
`int`/`size_t` counters as `ℕ` (all arithmetic on them in the embedded
routines is on non-negative values, and C++ truncating division on
non-negative ints agrees with `Nat.div`).  The transcendental library
functions `std::sqrt`, `std::exp`, `std::tanh`, `std::cos`, `std::sin`
have no rational counterpart, so every embedded routine that uses one
takes it as an explicit function parameter (`sqrtFn`, `expFn`, `tanhFn`)
or, for the filter-design cosine/sine, takes the already-evaluated
values `cos_omega`/`sin_omega` as inputs; theorems quantify over those
parameters.  The one place where only the *comparison* `sqrt s > t`
matters (the VAD window scans) is embedded by the exact equivalence
`sqrt s > t ↔ t < 0 ∨ t² < s` (valid for `s ≥ 0`, proved below against
`Real.sqrt`).

Loops whose C++ counterpart can fail to terminate (the `trim_silence`
window scans and the `calculate_energy` hop loop, whose increments are
`window_size/2` resp. `hop_size` and can be `0`) are embedded with
explicit fuel and an `Option` result: `none` models the C++ call not
returning.
-/

namespace Whispr

/-- Processor configuration, translated from the `Config` struct of
`audio_processor.hpp` (defaults from the header where the repository
records them; the AGC fields are quantified over in every theorem). -/
structure Config where
  enable_highpass : Bool := true
  highpass_freq : ℚ := 80
  enable_noise_gate : Bool := true
  noise_gate_threshold : ℚ := 1/50
  noise_gate_attack : ℚ := 1/1000
  noise_gate_release : ℚ := 1/20
  enable_normalization : Bool := true
  target_peak : ℚ := 9/10
  enable_agc : Bool := true
  agc_target_rms : ℚ := 1/5
  agc_min_gain : ℚ := 1/10
  agc_max_gain : ℚ := 10
deriving DecidableEq

/-- A configuration with every field at its default. -/
def defaultConfig : Config := {}

/-- The biquad history registers `x1_, x2_, y1_, y2_` of `AudioProcessor`. -/
structure FiltState where
  x1 : ℚ
  x2 : ℚ
  y1 : ℚ
  y2 : ℚ
deriving DecidableEq

/-- The five biquad coefficients `b0_, b1_, b2_, a1_, a2_`. -/
structure Coeffs where
  b0 : ℚ
  b1 : ℚ
  b2 : ℚ
  a1 : ℚ
  a2 : ℚ
deriving DecidableEq

/-- `AudioProcessor::design_highpass_filter`, with `cos_omega` and
`sin_omega` (the cosine and sine of `ω = 2π·highpass_freq/sample_rate`,
computed in C++ by `std::cos`/`std::sin`) passed in as values. -/
def design_highpass_filter (cos_omega sin_omega : ℚ) : Coeffs :=
  let alpha := sin_omega / (2 * (707/1000))
  let a0 := 1 + alpha
  { b0 := (1 + cos_omega) / 2 / a0
    b1 := -(1 + cos_omega) / a0
    b2 := (1 + cos_omega) / 2 / a0
    a1 := -2 * cos_omega / a0
    a2 := (1 - alpha) / a0 }

/-- The Butterworth coefficient formulas exactly as the specification
states them: `α = sinΩ/(2·0.707)`, `a0 = 1+α`, `b0 = b2 = (1+cosΩ)/2/a0`,
`b1 = −(1+cosΩ)/a0`, `a1 = −2cosΩ/a0`, `a2 = (1−α)/a0`. -/
def specButterworthCoeffs (cosO sinO : ℚ) : Coeffs :=
  let alpha := sinO / (2 * (707/1000))
  let a0 := 1 + alpha
  { b0 := (1 + cosO) / 2 / a0
    b1 := -(1 + cosO) / a0
    b2 := (1 + cosO) / 2 / a0
    a1 := -2 * cosO / a0
    a2 := (1 - alpha) / a0 }

/-- `AudioProcessor::apply_highpass`: in-place biquad loop, returning the
rewritten buffer together with the final history registers. -/
def apply_highpass (c : Coeffs) : FiltState → List ℚ → List ℚ × FiltState
  | st, [] => ([], st)
  | st, x0 :: xs =>
      let y0 := c.b0 * x0 + c.b1 * st.x1 + c.b2 * st.x2 - c.a1 * st.y1 - c.a2 * st.y2
      let rest := apply_highpass c ⟨x0, st.x1, y0, st.y1⟩ xs
      (y0 :: rest.1, rest.2)

/-- Input history extended by the carried-in registers: index `i+2` is
`x[i]`, index `1` is `x[-1] = x1_`, index `0` is `x[-2] = x2_`. -/
def xpad (st : FiltState) (xs : List ℚ) : List ℚ := st.x2 :: st.x1 :: xs

/-- Output history extended by the carried-in registers, same indexing. -/
def ypad (st : FiltState) (ys : List ℚ) : List ℚ := st.y2 :: st.y1 :: ys

/-- The running peak scan of `apply_normalization`
(`if (abs_sample > peak) peak = abs_sample`, starting from `0`). -/
def peakOf (xs : List ℚ) : ℚ :=
  xs.foldl (fun p s => if |s| > p then |s| else p) 0

/-- The two sequential clamp statements of `apply_normalization`
(`if (sample > 1) sample = 1; if (sample < -1) sample = -1`). -/
def clamp1 (s : ℚ) : ℚ :=
  let s1 := if s > 1 then 1 else s
  if s1 < -1 then -1 else s1

/-- `AudioProcessor::apply_normalization`. -/
def apply_normalization (cfg : Config) (audio : List ℚ) : List ℚ :=
  if audio = [] then audio
  else
    let peak := peakOf audio
    if peak < 1/1000 then audio
    else
      let gain := min (cfg.target_peak / peak) 10
      audio.map (fun s => clamp1 (s * gain))

/-- `sum_sq` accumulation (`sum_sq += sample * sample`, from `0`). -/
def sumSq (xs : List ℚ) : ℚ := xs.foldl (fun s x => s + x * x) 0

/- ### Basic lemmas about the peak scan -/

theorem peakOf_cons (x : ℚ) (xs : List ℚ) :
    peakOf (x :: xs) = xs.foldl (fun p s => if |s| > p then |s| else p) (if |x| > 0 then |x| else 0) := rfl

theorem foldl_peak_eq_max (xs : List ℚ) (a : ℚ) :
    xs.foldl (fun p s => if |s| > p then |s| else p) a = xs.foldl (fun p s => max p |s|) a := by
  induction xs generalizing a with
  | nil => rfl
  | cons x xs ih =>
      simp only [List.foldl_cons]
      rw [ih]
      congr 1
      rcases lt_or_ge a |x| with h | h
      · simp [h, max_eq_right h.le]
      · simp [not_lt.2 h, max_eq_left h]

theorem peakOf_eq_foldl_max (xs : List ℚ) :
    peakOf xs = xs.foldl (fun p s => max p |s|) 0 := foldl_peak_eq_max xs 0

theorem foldl_max_init_le (xs : List ℚ) (a : ℚ) :
    a ≤ xs.foldl (fun p s => max p |s|) a := by
  induction xs generalizing a with
  | nil => exact le_refl a
  | cons x xs ih => exact le_trans (le_max_left a |x|) (ih (max a |x|))

theorem peakOf_nonneg (xs : List ℚ) : 0 ≤ peakOf xs := by
  rw [peakOf_eq_foldl_max]; exact foldl_max_init_le xs 0

theorem foldl_max_le (xs : List ℚ) (a b : ℚ) (ha : a ≤ b)
    (h : ∀ x ∈ xs, |x| ≤ b) : xs.foldl (fun p s => max p |s|) a ≤ b := by
  induction xs generalizing a with
  | nil => exact ha
  | cons x xs ih =>
      simp only [List.foldl_cons]
      exact ih (max a |x|) (max_le ha (h x (List.mem_cons_self x xs)))
        (fun y hy => h y (List.mem_cons_of_mem x hy))

theorem peakOf_le (xs : List ℚ) (b : ℚ) (hb : 0 ≤ b)
    (h : ∀ x ∈ xs, |x| ≤ b) : peakOf xs ≤ b := by
  rw [peakOf_eq_foldl_max]; exact foldl_max_le xs 0 b hb h

theorem le_foldl_max_of_mem (xs : List ℚ) (a x : ℚ) (hx : x ∈ xs) :
    |x| ≤ xs.foldl (fun p s => max p |s|) a := by
  induction xs generalizing a with
  | nil => cases hx
  | cons y ys ih =>
      rcases List.mem_cons.1 hx with h | h
      · subst h
        exact le_trans (le_max_right a |x|) (foldl_max_init_le ys (max a |x|))
      · exact ih (max a |y|) h

theorem abs_le_peakOf (xs : List ℚ) (x : ℚ) (hx : x ∈ xs) : |x| ≤ peakOf xs := by
  rw [peakOf_eq_foldl_max]; exact le_foldl_max_of_mem xs 0 x hx

theorem clamp1_eq_clamp (s : ℚ) : clamp1 s = min 1 (max (-1) s) := by
  unfold clamp1
  rcases lt_trichotomy s 1 with h | h | h
  · simp only [if_neg (not_lt.2 h.le)]
    rcases lt_or_ge s (-1) with h2 | h2
    · rw [if_pos h2, max_eq_left h2.le, min_eq_right]; norm_num
    · rw [if_neg (not_lt.2 h2), max_eq_right h2, min_eq_right h.le]
  · subst h; norm_num
  · rw [if_pos h, if_neg (by norm_num), max_eq_right (by linarith),
      min_eq_left h.le]

theorem abs_clamp1_le_one (s : ℚ) : |clamp1 s| ≤ 1 := by
  rw [clamp1_eq_clamp, abs_le]
  constructor
  · exact le_min (by norm_num) (le_max_left _ _)
  · exact min_le_left _ _

theorem clamp1_of_abs_le_one (s : ℚ) (h : |s| ≤ 1) : clamp1 s = s := by
  rw [clamp1_eq_clamp]
  rw [abs_le] at h
  rw [max_eq_right h.1, min_eq_right h.2]

/- ### The biquad loop satisfies the direct-form difference equation -/

theorem apply_highpass_cons (c : Coeffs) (st : FiltState) (x0 : ℚ) (xs : List ℚ) :
    apply_highpass c st (x0 :: xs) =
      ((c.b0 * x0 + c.b1 * st.x1 + c.b2 * st.x2 - c.a1 * st.y1 - c.a2 * st.y2) ::
        (apply_highpass c ⟨x0, st.x1,
          c.b0 * x0 + c.b1 * st.x1 + c.b2 * st.x2 - c.a1 * st.y1 - c.a2 * st.y2, st.y1⟩ xs).1,
       (apply_highpass c ⟨x0, st.x1,
          c.b0 * x0 + c.b1 * st.x1 + c.b2 * st.x2 - c.a1 * st.y1 - c.a2 * st.y2, st.y1⟩ xs).2) := rfl

theorem apply_highpass_length (c : Coeffs) :
    ∀ (xs : List ℚ) (st : FiltState), ((apply_highpass c st xs).1).length = xs.length
  | [], _ => rfl
  | x0 :: xs, st => by
      rw [apply_highpass_cons]
      simpa using apply_highpass_length c xs _

theorem apply_highpass_getD (c : Coeffs) :
    ∀ (xs : List ℚ) (st : FiltState) (i : ℕ), i < xs.length →
      ((apply_highpass c st xs).1).getD i 0 =
        c.b0 * (xpad st xs).getD (i + 2) 0
          + c.b1 * (xpad st xs).getD (i + 1) 0
          + c.b2 * (xpad st xs).getD i 0
          - c.a1 * (ypad st (apply_highpass c st xs).1).getD (i + 1) 0
          - c.a2 * (ypad st (apply_highpass c st xs).1).getD i 0
  | [], _, i, hi => absurd hi (by simp)
  | x0 :: xs, st, 0, _ => by
      rw [apply_highpass_cons]
      simp [xpad, ypad]
  | x0 :: xs, st, i + 1, hi => by
      rw [apply_highpass_cons]
      have ih := apply_highpass_getD c xs
        ⟨x0, st.x1, c.b0 * x0 + c.b1 * st.x1 + c.b2 * st.x2 - c.a1 * st.y1 - c.a2 * st.y2, st.y1⟩
        i (by simp only [List.length_cons] at hi; omega)
      simpa [xpad, ypad] using ih

/- ### Noise gate -/

/-- The per-sample envelope update of `apply_noise_gate` (attack when the
instantaneous magnitude exceeds the envelope, release otherwise). -/
def gateStep (attack_coef release_coef : ℚ) (env x : ℚ) : ℚ :=
  let abs_sample := |x|
  if abs_sample > env then env + attack_coef * (abs_sample - env)
  else env + release_coef * (abs_sample - env)

/-- The sample loop of `apply_noise_gate`, threading `gate_env_`. -/
def gateRun (ac rc thr : ℚ) : ℚ → List ℚ → List ℚ × ℚ
  | env, [] => ([], env)
  | env, x :: xs =>
      let env' := gateStep ac rc env x
      let out := if env' < thr then x * ((env' / thr) * (env' / thr)) else x
      let rest := gateRun ac rc thr env' xs
      (out :: rest.1, rest.2)

/-- `AudioProcessor::apply_noise_gate`, with `std::exp` passed as `expFn`. -/
def apply_noise_gate (expFn : ℚ → ℚ) (cfg : Config) (sample_rate : ℚ)
    (env : ℚ) (audio : List ℚ) : List ℚ × ℚ :=
  let attack_coef := 1 - expFn (-1 / (cfg.noise_gate_attack * sample_rate))
  let release_coef := 1 - expFn (-1 / (cfg.noise_gate_release * sample_rate))
  gateRun attack_coef release_coef cfg.noise_gate_threshold env audio

/-- The envelope value after the first `n` samples have been processed. -/
def envAt (ac rc e0 : ℚ) (xs : List ℚ) (n : ℕ) : ℚ :=
  (xs.take n).foldl (gateStep ac rc) e0

theorem envAt_zero (ac rc e0 : ℚ) (xs : List ℚ) : envAt ac rc e0 xs 0 = e0 := rfl

theorem envAt_cons (ac rc e0 x : ℚ) (xs : List ℚ) (n : ℕ) :
    envAt ac rc e0 (x :: xs) (n + 1) = envAt ac rc (gateStep ac rc e0 x) xs n := by
  simp [envAt, List.take_succ_cons]

theorem envAt_succ (ac rc : ℚ) :
    ∀ (xs : List ℚ) (e0 : ℚ) (i : ℕ), i < xs.length →
      envAt ac rc e0 xs (i + 1) = gateStep ac rc (envAt ac rc e0 xs i) (xs.getD i 0)
  | [], _, i, hi => absurd hi (by simp)
  | x :: xs, e0, 0, _ => by simp [envAt, List.take_succ_cons]
  | x :: xs, e0, i + 1, hi => by
      rw [envAt_cons, envAt_cons,
        envAt_succ ac rc xs (gateStep ac rc e0 x) i (by simpa using hi)]
      simp

theorem gateRun_cons (ac rc thr e0 x : ℚ) (xs : List ℚ) :
    gateRun ac rc thr e0 (x :: xs) =
      ((if gateStep ac rc e0 x < thr
        then x * ((gateStep ac rc e0 x / thr) * (gateStep ac rc e0 x / thr)) else x) ::
        (gateRun ac rc thr (gateStep ac rc e0 x) xs).1,
       (gateRun ac rc thr (gateStep ac rc e0 x) xs).2) := rfl

theorem gateRun_length (ac rc thr : ℚ) :
    ∀ (xs : List ℚ) (e0 : ℚ), ((gateRun ac rc thr e0 xs).1).length = xs.length
  | [], _ => rfl
  | x :: xs, e0 => by
      rw [gateRun_cons]
      simpa using gateRun_length ac rc thr xs (gateStep ac rc e0 x)

theorem gateRun_getD (ac rc thr : ℚ) :
    ∀ (xs : List ℚ) (e0 : ℚ) (i : ℕ), i < xs.length →
      ((gateRun ac rc thr e0 xs).1).getD i 0 =
        (if envAt ac rc e0 xs (i + 1) < thr
         then xs.getD i 0 *
           ((envAt ac rc e0 xs (i + 1) / thr) * (envAt ac rc e0 xs (i + 1) / thr))
         else xs.getD i 0)
  | [], _, i, hi => absurd hi (by simp)
  | x :: xs, e0, 0, _ => by
      rw [gateRun_cons]
      simp [envAt, List.take_succ_cons]
  | x :: xs, e0, i + 1, hi => by
      rw [gateRun_cons, envAt_cons]
      simpa using gateRun_getD ac rc thr xs (gateStep ac rc e0 x) i (by simpa using hi)

theorem gateRun_env (ac rc thr : ℚ) :
    ∀ (xs : List ℚ) (e0 : ℚ),
      (gateRun ac rc thr e0 xs).2 = envAt ac rc e0 xs xs.length
  | [], _ => rfl
  | x :: xs, e0 => by
      rw [gateRun_cons]
      show (gateRun ac rc thr (gateStep ac rc e0 x) xs).2 = _
      rw [gateRun_env ac rc thr xs (gateStep ac rc e0 x)]
      rw [show (x :: xs).length = xs.length + 1 from rfl, envAt_cons]

/- ### AGC -/

/-- The tanh soft-clip branch of `apply_agc`
(`if (|sample| > 0.9) sample = 0.9 * tanh(sample / 0.9)`). -/
def agcCompress (tanhFn : ℚ → ℚ) (s : ℚ) : ℚ :=
  if |s| > 9/10 then (9/10) * tanhFn (s / (9/10)) else s

/-- The `rms` local of `apply_agc`: `sqrt(sum of squares / n)`. -/
def agcRms (sqrtFn : ℚ → ℚ) (audio : List ℚ) : ℚ :=
  sqrtFn (sumSq audio / (audio.length : ℚ))

/-- The clamped `gain` local of `apply_agc`:
`max(min_gain, min(target_rms/rms, max_gain))`. -/
def agcGain (sqrtFn : ℚ → ℚ) (cfg : Config) (audio : List ℚ) : ℚ :=
  max cfg.agc_min_gain (min (cfg.agc_target_rms / agcRms sqrtFn audio) cfg.agc_max_gain)

/-- `AudioProcessor::apply_agc`, with `std::sqrt` and `std::tanh` passed
as `sqrtFn` and `tanhFn`. -/
def apply_agc (sqrtFn tanhFn : ℚ → ℚ) (cfg : Config) (audio : List ℚ) : List ℚ :=
  if audio = [] then audio
  else if agcRms sqrtFn audio < 1/10000 then audio
  else audio.map (fun s => agcCompress tanhFn (s * agcGain sqrtFn cfg audio))

theorem foldl_sumSq_init (xs : List ℚ) (a : ℚ) :
    xs.foldl (fun s x => s + x * x) a = a + sumSq xs := by
  induction xs generalizing a with
  | nil => simp [sumSq]
  | cons x xs ih =>
      simp only [List.foldl_cons, sumSq]
      rw [ih, ih (0 + x * x)]
      ring

theorem sumSq_cons (x : ℚ) (xs : List ℚ) : sumSq (x :: xs) = x * x + sumSq xs := by
  rw [show sumSq (x :: xs) = xs.foldl (fun s x => s + x * x) (0 + x * x) from rfl,
    foldl_sumSq_init]
  ring

theorem sumSq_nonneg (xs : List ℚ) : 0 ≤ sumSq xs := by
  induction xs with
  | nil => simp [sumSq]
  | cons x xs ih =>
      rw [sumSq_cons]
      have := mul_self_nonneg x
      linarith

theorem sumSq_map_mul (g : ℚ) (xs : List ℚ) :
    sumSq (xs.map (fun s => s * g)) = g ^ 2 * sumSq xs := by
  induction xs with
  | nil => simp [sumSq]
  | cons x xs ih =>
      rw [List.map_cons, sumSq_cons, sumSq_cons, ih]
      ring

/- ### The square-root comparison of the VAD window scans

`std::sqrt(s) > t` for `s ≥ 0` is equivalent to `t < 0 ∨ t² < s`; the scans
only use the comparison, so this is how the embedding evaluates it.  The
equivalence against `Real.sqrt` is proved just below. -/

def sqrtGtB (s t : ℚ) : Bool := decide (t < 0) || decide (t * t < s)

theorem sqrtGtB_iff_real (s t : ℚ) :
    sqrtGtB s t = true ↔ (t : ℝ) < Real.sqrt (s : ℝ) := by
  unfold sqrtGtB
  rcases lt_or_ge t 0 with ht | ht
  · simp only [decide_eq_true_eq, Bool.or_eq_true]
    constructor
    · intro _
      exact lt_of_lt_of_le (by exact_mod_cast ht) (Real.sqrt_nonneg _)
    · intro _
      exact Or.inl ht
  · have ht' : (0 : ℝ) ≤ (t : ℚ) := by exact_mod_cast ht
    rw [Real.lt_sqrt ht']
    simp only [Bool.or_eq_true, decide_eq_true_eq]
    constructor
    · rintro (h | h)
      · exact absurd h (not_lt.2 ht)
      · have h' : (t : ℝ) * t < s := by exact_mod_cast h
        nlinarith [h']
    · intro h
      refine Or.inr ?_
      have : (t : ℝ) * t < s := by nlinarith [h]
      exact_mod_cast this

/-- Exact square root on rationals whose numerator and denominator are
perfect squares (used only to instantiate `sqrtFn` in concrete witnesses). -/
def ratSqrt (q : ℚ) : ℚ :=
  if q ≤ 0 then 0 else (Nat.sqrt q.num.toNat : ℚ) / (Nat.sqrt q.den : ℚ)

/- ### trim_silence -/

/-- RMS window numerator: `sum_sq` over `audio[i .. i+ws)` (also truncated
at the end of the buffer, as the C++ loop condition
`j < i + window_size && j < audio.size()` does). -/
def windowSumSq (audio : List ℚ) (i ws : ℕ) : ℚ := sumSq ((audio.drop i).take ws)

/-- `window_size` computation of `trim_silence`
(`sample_rate / 100`, forced to at least `1`). -/
def trimWindow (sr : ℕ) : ℕ :=
  let ws := sr / 100
  if ws < 1 then 1 else ws

/-- The forward window scan of `trim_silence` (finds `start_idx`), with
explicit fuel; `none` models the C++ loop not terminating. -/
def scanFwd (audio : List ℚ) (thr : ℚ) (mss ws hop : ℕ) : ℕ → ℕ → Option ℕ
  | 0, _ => none
  | fuel + 1, i =>
      if i + ws ≤ audio.length then
        if sqrtGtB (windowSumSq audio i ws / (ws : ℚ)) thr then
          some (if i > mss / 2 then i - mss / 2 else 0)
        else scanFwd audio thr mss ws hop fuel (i + hop)
      else some 0

/-- The backward window scan of `trim_silence` (finds `end_idx`). -/
def scanBwd (audio : List ℚ) (thr : ℚ) (mss ws hop : ℕ) : ℕ → ℕ → Option ℕ
  | 0, _ => none
  | fuel + 1, i =>
      if ws ≤ i then
        if sqrtGtB (windowSumSq audio (i - ws) ws / (ws : ℚ)) thr then
          some (min (i + mss / 2) audio.length)
        else scanBwd audio thr mss ws hop fuel (i - hop)
      else some audio.length

/-- `start_idx` computed by `trim_silence`. -/
def trimStart (audio : List ℚ) (thr : ℚ) (mss sr : ℕ) : Option ℕ :=
  scanFwd audio thr mss (trimWindow sr) (trimWindow sr / 2) (audio.length + 2) 0

/-- `end_idx` computed by `trim_silence`. -/
def trimEnd (audio : List ℚ) (thr : ℚ) (mss sr : ℕ) : Option ℕ :=
  scanBwd audio thr mss (trimWindow sr) (trimWindow sr / 2) (audio.length + 2)
    audio.length

/-- `AudioProcessor::trim_silence`; `none` models non-termination of a scan. -/
def trim_silence (audio : List ℚ) (thr : ℚ) (mss sr : ℕ) : Option (List ℚ) :=
  if audio = [] then some audio
  else
    match trimStart audio thr mss sr, trimEnd audio thr mss sr with
    | some start_idx, some end_idx =>
        if start_idx ≥ end_idx ∨ end_idx - start_idx < sr / 10 then some audio
        else some ((audio.drop start_idx).take (end_idx - start_idx))
    | _, _ => none

/-- Decidable version of "every analysis window has RMS at or below the
threshold" (pure silence in the sense of the trim-safety property). -/
def allWindowsBelow (audio : List ℚ) (thr : ℚ) (ws : ℕ) : Bool :=
  (List.range (audio.length + 1)).all fun i =>
    if i + ws ≤ audio.length then !sqrtGtB (windowSumSq audio i ws / (ws : ℚ)) thr
    else true

/-- The forward scan never returns for any amount of fuel. -/
def scanFwdDiverges (audio : List ℚ) (thr : ℚ) (mss ws hop i : ℕ) : Prop :=
  ∀ fuel, scanFwd audio thr mss ws hop fuel i = none

theorem scanFwd_isSome (audio : List ℚ) (thr : ℚ) (mss ws hop : ℕ)
    (hhop : 1 ≤ hop) (hws : hop ≤ ws) :
    ∀ (fuel i : ℕ), audio.length - i < fuel →
      (scanFwd audio thr mss ws hop fuel i).isSome = true
  | 0, _, hfuel => absurd hfuel (by omega)
  | fuel + 1, i, hfuel => by
      rw [scanFwd]
      by_cases hg : i + ws ≤ audio.length
      · rw [if_pos hg]
        by_cases hb : sqrtGtB (windowSumSq audio i ws / (ws : ℚ)) thr = true
        · rw [if_pos hb]; rfl
        · rw [if_neg hb]
          exact scanFwd_isSome audio thr mss ws hop hhop hws fuel (i + hop) (by omega)
      · rw [if_neg hg]; rfl

theorem scanBwd_isSome (audio : List ℚ) (thr : ℚ) (mss ws hop : ℕ)
    (hhop : 1 ≤ hop) (hws : hop ≤ ws) :
    ∀ (fuel i : ℕ), i < fuel →
      (scanBwd audio thr mss ws hop fuel i).isSome = true
  | 0, _, hfuel => absurd hfuel (by omega)
  | fuel + 1, i, hfuel => by
      rw [scanBwd]
      by_cases hg : ws ≤ i
      · rw [if_pos hg]
        by_cases hb : sqrtGtB (windowSumSq audio (i - ws) ws / (ws : ℚ)) thr = true
        · rw [if_pos hb]; rfl
        · rw [if_neg hb]
          exact scanBwd_isSome audio thr mss ws hop hhop hws fuel (i - hop) (by omega)
      · rw [if_neg hg]; rfl

theorem scanFwd_noBreak (audio : List ℚ) (thr : ℚ) (mss ws hop : ℕ)
    (hq : ∀ j, j + ws ≤ audio.length →
      sqrtGtB (windowSumSq audio j ws / (ws : ℚ)) thr = false) :
    ∀ (fuel i s : ℕ), scanFwd audio thr mss ws hop fuel i = some s → s = 0
  | 0, _, _, h => by cases h
  | fuel + 1, i, s, h => by
      rw [scanFwd] at h
      by_cases hg : i + ws ≤ audio.length
      · rw [if_pos hg, hq i hg] at h
        simp only [Bool.false_eq_true, if_false] at h
        exact scanFwd_noBreak audio thr mss ws hop hq fuel (i + hop) s h
      · rw [if_neg hg] at h
        exact (Option.some_inj.1 h).symm

theorem scanBwd_noBreak (audio : List ℚ) (thr : ℚ) (mss ws hop : ℕ)
    (hq : ∀ j, j + ws ≤ audio.length →
      sqrtGtB (windowSumSq audio j ws / (ws : ℚ)) thr = false) :
    ∀ (fuel i e : ℕ), i ≤ audio.length →
      scanBwd audio thr mss ws hop fuel i = some e → e = audio.length
  | 0, _, _, _, h => by cases h
  | fuel + 1, i, e, hi, h => by
      rw [scanBwd] at h
      by_cases hg : ws ≤ i
      · rw [if_pos hg, hq (i - ws) (by omega)] at h
        simp only [Bool.false_eq_true, if_false] at h
        exact scanBwd_noBreak audio thr mss ws hop hq fuel (i - hop) e (by omega) h
      · rw [if_neg hg] at h
        exact (Option.some_inj.1 h).symm

theorem scanFwd_lt_length (audio : List ℚ) (thr : ℚ) (mss ws hop : ℕ)
    (hne : audio ≠ []) (hws : 1 ≤ ws) :
    ∀ (fuel i s : ℕ), scanFwd audio thr mss ws hop fuel i = some s →
      s < audio.length
  | 0, _, _, h => by cases h
  | fuel + 1, i, s, h => by
      have hlen : 1 ≤ audio.length := by
        cases audio with
        | nil => exact absurd rfl hne
        | cons a l => simp
      rw [scanFwd] at h
      by_cases hg : i + ws ≤ audio.length
      · rw [if_pos hg] at h
        by_cases hb : sqrtGtB (windowSumSq audio i ws / (ws : ℚ)) thr = true
        · rw [if_pos hb] at h
          have := Option.some_inj.1 h
          subst this
          by_cases hm : i > mss / 2
          · rw [if_pos hm]; omega
          · rw [if_neg hm]; omega
        · rw [if_neg hb] at h
          exact scanFwd_lt_length audio thr mss ws hop hne hws fuel (i + hop) s h
      · rw [if_neg hg] at h
        have := Option.some_inj.1 h
        omega

theorem allWindowsBelow_spec (audio : List ℚ) (thr : ℚ) (ws : ℕ)
    (h : allWindowsBelow audio thr ws = true) :
    ∀ j, j + ws ≤ audio.length →
      sqrtGtB (windowSumSq audio j ws / (ws : ℚ)) thr = false := by
  intro j hj
  have hmem : j ∈ List.range (audio.length + 1) := List.mem_range.2 (by omega)
  have := (List.all_eq_true.1 h) j hmem
  rw [if_pos hj] at this
  simpa using this

/-- C1.  For every non-empty input, whenever `trim_silence` returns: if the
computed boundaries are crossed or span under 100 ms the original buffer
comes back; for pure silence (every window RMS at or below the threshold)
the original buffer comes back; and the result is never empty. -/
theorem trim_silence_fallback (audio : List ℚ) (thr : ℚ) (mss sr : ℕ)
    (r : List ℚ) (s e : ℕ)
    (hne : audio ≠ [])
    (hr : trim_silence audio thr mss sr = some r)
    (hs : trimStart audio thr mss sr = some s)
    (he : trimEnd audio thr mss sr = some e) :
    (e ≤ s ∨ e - s < sr / 10 → r = audio) ∧
    (allWindowsBelow audio thr (trimWindow sr) = true → r = audio) ∧
    r ≠ [] := by
  have hws1 : 1 ≤ trimWindow sr := by
    unfold trimWindow
    by_cases h : sr / 100 < 1
    · rw [if_pos h]
    · rw [if_neg h]; omega
  rw [trim_silence, if_neg hne, hs, he] at hr
  have hcond :
      (if s ≥ e ∨ e - s < sr / 10 then some audio
        else some ((audio.drop s).take (e - s))) = some r := hr
  refine ⟨?_, ?_, ?_⟩
  · intro hcase
    rw [if_pos (by omega : s ≥ e ∨ e - s < sr / 10)] at hcond
    · exact (Option.some_inj.1 hcond).symm
  · intro hsilent
    have hq := allWindowsBelow_spec audio thr (trimWindow sr) hsilent
    have hs0 : s = 0 :=
      scanFwd_noBreak audio thr mss (trimWindow sr) (trimWindow sr / 2) hq
        (audio.length + 2) 0 s hs
    have heN : e = audio.length :=
      scanBwd_noBreak audio thr mss (trimWindow sr) (trimWindow sr / 2) hq
        (audio.length + 2) audio.length e (le_refl _) he
    subst hs0; subst heN
    by_cases hfall : 0 ≥ audio.length ∨ audio.length - 0 < sr / 10
    · rw [if_pos hfall] at hcond
      exact (Option.some_inj.1 hcond).symm
    · rw [if_neg hfall] at hcond
      rw [← Option.some_inj.1 hcond]
      simp
  · by_cases hfall : s ≥ e ∨ e - s < sr / 10
    · rw [if_pos hfall] at hcond
      rw [← Option.some_inj.1 hcond]
      exact hne
    · rw [if_neg hfall] at hcond
      rw [← Option.some_inj.1 hcond]
      have hslt : s < audio.length :=
        scanFwd_lt_length audio thr mss (trimWindow sr) (trimWindow sr / 2) hne hws1
          (audio.length + 2) 0 s hs
      intro hnil
      rcases List.take_eq_nil_iff.1 hnil with h0 | h0
      · omega
      · have := List.drop_eq_nil_iff.1 h0
        omega

/-- Witness for C1 at a concrete input: four zero samples at 200 Hz; the
boundaries come back uncrossed but the span is under 100 ms, so the
original buffer is returned and it is non-empty. -/
theorem trim_silence_fallback_witness :
    (([0, 0, 0, 0] : List ℚ) ≠ [] ∧
      trim_silence ([0, 0, 0, 0] : List ℚ) (1/100) 4 200 = some [0, 0, 0, 0] ∧
      trimStart ([0, 0, 0, 0] : List ℚ) (1/100) 4 200 = some 0 ∧
      trimEnd ([0, 0, 0, 0] : List ℚ) (1/100) 4 200 = some 4) ∧
    ((4 ≤ 0 ∨ 4 - 0 < 200 / 10 → ([0, 0, 0, 0] : List ℚ) = [0, 0, 0, 0]) ∧
      (allWindowsBelow ([0, 0, 0, 0] : List ℚ) (1/100) (trimWindow 200) = true →
        ([0, 0, 0, 0] : List ℚ) = [0, 0, 0, 0]) ∧
      ([0, 0, 0, 0] : List ℚ) ≠ []) :=
  ⟨⟨by simp,
    by norm_num [trim_silence, trimStart, trimEnd, trimWindow, scanFwd, scanBwd,
      windowSumSq, sumSq, sqrtGtB],
    by norm_num [trimStart, trimWindow, scanFwd, windowSumSq, sumSq, sqrtGtB],
    by norm_num [trimEnd, trimWindow, scanBwd, windowSumSq, sumSq, sqrtGtB]⟩,
    trim_silence_fallback ([0, 0, 0, 0] : List ℚ) (1/100) 4 200 [0, 0, 0, 0] 0 4
      (by simp)
      (by norm_num [trim_silence, trimStart, trimEnd, trimWindow, scanFwd, scanBwd,
        windowSumSq, sumSq, sqrtGtB])
      (by norm_num [trimStart, trimWindow, scanFwd, windowSumSq, sumSq, sqrtGtB])
      (by norm_num [trimEnd, trimWindow, scanBwd, windowSumSq, sumSq, sqrtGtB])⟩

theorem scanFwd_stuck (audio : List ℚ) (thr : ℚ) (mss ws : ℕ) (i : ℕ)
    (hg : i + ws ≤ audio.length)
    (hb : sqrtGtB (windowSumSq audio i ws / (ws : ℚ)) thr = false) :
    scanFwdDiverges audio thr mss ws 0 i := by
  intro fuel
  induction fuel with
  | zero => rfl
  | succ n ih =>
      rw [scanFwd, if_pos hg]
      simp only [hb, Bool.false_eq_true, if_false, Nat.add_zero]
      exact ih

/-- C9 (amended).  For every buffer and every sample rate of at least
200 Hz — equivalently, whenever the hop `window_size/2` is at least one
sample — both window scans of `trim_silence` terminate and the call
returns a buffer. -/
theorem trim_silence_terminates (audio : List ℚ) (thr : ℚ) (mss sr : ℕ)
    (hsr : 200 ≤ sr) :
    ∃ r, trim_silence audio thr mss sr = some r := by
  by_cases hne : audio = []
  · exact ⟨audio, by rw [trim_silence, if_pos hne]⟩
  · have hws : 2 ≤ trimWindow sr := by
      unfold trimWindow
      have h1 : 2 ≤ sr / 100 := by omega
      simp only []
      rw [if_neg (by omega)]
      exact h1
    have hhop1 : 1 ≤ trimWindow sr / 2 := by omega
    have hhople : trimWindow sr / 2 ≤ trimWindow sr := by omega
    have hstart : (trimStart audio thr mss sr).isSome = true :=
      scanFwd_isSome audio thr mss (trimWindow sr) (trimWindow sr / 2) hhop1 hhople
        (audio.length + 2) 0 (by omega)
    have hend : (trimEnd audio thr mss sr).isSome = true :=
      scanBwd_isSome audio thr mss (trimWindow sr) (trimWindow sr / 2) hhop1 hhople
        (audio.length + 2) audio.length (by omega)
    obtain ⟨s, hs⟩ := Option.isSome_iff_exists.1 hstart
    obtain ⟨e, he⟩ := Option.isSome_iff_exists.1 hend
    by_cases hc : s ≥ e ∨ e - s < sr / 10
    · refine ⟨audio, ?_⟩
      rw [trim_silence, if_neg hne, hs, he]
      show (if s ≥ e ∨ e - s < sr / 10 then some audio
        else some ((audio.drop s).take (e - s))) = some audio
      rw [if_pos hc]
    · refine ⟨(audio.drop s).take (e - s), ?_⟩
      rw [trim_silence, if_neg hne, hs, he]
      show (if s ≥ e ∨ e - s < sr / 10 then some audio
        else some ((audio.drop s).take (e - s))) = some ((audio.drop s).take (e - s))
      rw [if_neg hc]

/-- Witness for C9 at a concrete input. -/
theorem trim_silence_terminates_witness :
    200 ≤ 200 ∧ ∃ r, trim_silence ([0, 0, 0, 0] : List ℚ) (1/100) 4 200 = some r :=
  ⟨by decide, trim_silence_terminates ([0, 0, 0, 0] : List ℚ) (1/100) 4 200 (by decide)⟩

/-- Counterexample to C9 as stated: at sample rate 100 the hop
`window_size/2` is `0`, and on a below-threshold buffer the forward scan
of `trim_silence` repeats index `0` forever — no amount of fuel makes it
return, so the call does not return (modelled as `none`). -/
theorem trim_silence_hop_zero_diverges :
    trimWindow 100 = 1 ∧ trimWindow 100 / 2 = 0 ∧
    trim_silence ([0, 0] : List ℚ) (1/100) 0 100 = none ∧
    scanFwdDiverges ([0, 0] : List ℚ) (1/100) 0 1 0 0 :=
  ⟨by decide, by decide,
    by
      have h1 : trimStart ([0, 0] : List ℚ) (1/100) 0 100 = none := by
        norm_num [trimStart, trimWindow, scanFwd, windowSumSq, sumSq, sqrtGtB]
      have h2 : trimEnd ([0, 0] : List ℚ) (1/100) 0 100 = none := by
        norm_num [trimEnd, trimWindow, scanBwd, windowSumSq, sumSq, sqrtGtB]
      rw [trim_silence, if_neg (by simp), h1, h2],
    scanFwd_stuck ([0, 0] : List ℚ) (1/100) 0 1 0 (by decide)
      (by norm_num [windowSumSq, sumSq, sqrtGtB])⟩

/- ### extract_speech -/

/-- The hop loop of `AudioProcessor::calculate_energy` (one RMS value per
window position), with explicit fuel since the C++ loop increments by
`hop_size`, which can be `0`. -/
def energyRawF (sqrtFn : ℚ → ℚ) (audio : List ℚ) (ws hop : ℕ) :
    ℕ → ℕ → Option (List ℚ)
  | 0, _ => none
  | fuel + 1, i =>
      if i + ws ≤ audio.length then
        match energyRawF sqrtFn audio ws hop fuel (i + hop) with
        | some rest => some (sqrtFn (windowSumSq audio i ws / (ws : ℚ)) :: rest)
        | none => none
      else some []

/-- The moving-average smoothing pass of `calculate_energy` (window
`j ∈ [-2, 2]` clipped to valid indices, divided by the clipped count),
applied only when more than three frames exist. -/
def smooth5 (energy : List ℚ) : List ℚ :=
  if energy.length > 3 then
    (List.range energy.length).map fun i =>
      let sc := ([-2, -1, 0, 1, 2] : List ℤ).foldl
        (fun p j =>
          let idx := (i : ℤ) + j
          if 0 ≤ idx ∧ idx < (energy.length : ℤ) then
            (p.1 + energy.getD idx.toNat 0, p.2 + 1)
          else p)
        ((0 : ℚ), (0 : ℕ))
      sc.1 / (sc.2 : ℚ)
  else energy

/-- `AudioProcessor::calculate_energy`; `none` models the hop loop not
terminating. -/
def calculate_energy (sqrtFn : ℚ → ℚ) (audio : List ℚ) (ws hop : ℕ) :
    Option (List ℚ) :=
  if audio = [] ∨ ws = 0 then some []
  else
    match energyRawF sqrtFn audio ws hop (audio.length + 2) 0 with
    | some energy => some (smooth5 energy)
    | none => none

/-- The mutable locals of the segment-detection loop of `extract_speech`. -/
structure SegState where
  segments : List (ℕ × ℕ)
  in_speech : Bool
  speech_start : ℕ
  consecutive_speech : ℕ
  consecutive_silence : ℕ
deriving DecidableEq

/-- One iteration of the segment-detection loop of `extract_speech`,
on the pair (frame index, smoothed energy value). -/
def segStep (thr : ℚ) (minf : ℕ) (st : SegState) (ie : ℕ × ℚ) : SegState :=
  if ie.2 > thr then
    let cs := st.consecutive_speech + 1
    if st.in_speech = false ∧ 2 ≤ cs then
      { st with in_speech := true,
                speech_start := if ie.1 > 1 then ie.1 - 1 else 0,
                consecutive_speech := cs, consecutive_silence := 0 }
    else { st with consecutive_speech := cs, consecutive_silence := 0 }
  else
    let csil := st.consecutive_silence + 1
    if st.in_speech = true ∧ 3 ≤ csil then
      { st with in_speech := false,
                segments :=
                  if minf ≤ ie.1 - st.speech_start
                  then st.segments ++ [(st.speech_start, ie.1)] else st.segments,
                consecutive_speech := 0, consecutive_silence := csil }
    else { st with consecutive_silence := csil }

/-- The segment-detection loop of `extract_speech`, including the
trailing "speech extends to the end" segment. -/
def findSegments (thr : ℚ) (minf : ℕ) (energy : List ℚ) : List (ℕ × ℕ) :=
  let st := energy.enum.foldl (segStep thr minf) ⟨[], false, 0, 0, 0⟩
  if st.in_speech = true ∧ minf ≤ energy.length - st.speech_start then
    st.segments ++ [(st.speech_start, energy.length)]
  else st.segments

/-- One iteration of the pad-and-merge loop of `extract_speech`. -/
def mergeStep (padf N : ℕ) (acc : List (ℕ × ℕ)) (seg : ℕ × ℕ) : List (ℕ × ℕ) :=
  let padded_start := if seg.1 > padf then seg.1 - padf else 0
  let padded_end := min (seg.2 + padf) N
  match acc.getLast? with
  | some last =>
      if padded_start ≤ last.2 then acc.dropLast ++ [(last.1, padded_end)]
      else acc ++ [(padded_start, padded_end)]
  | none => [(padded_start, padded_end)]

/-- The pad-and-merge loop of `extract_speech` over all kept segments. -/
def mergeSegments (padf N : ℕ) (segs : List (ℕ × ℕ)) : List (ℕ × ℕ) :=
  segs.foldl (mergeStep padf N) []

/-- The final frame-to-sample conversion and concatenation loop of
`extract_speech`. -/
def concatSegments (audio : List ℚ) (ws hop : ℕ) (segs : List (ℕ × ℕ)) : List ℚ :=
  segs.foldl
    (fun result seg =>
      let sample_start := seg.1 * hop
      let sample_end := min (seg.2 * hop + ws) audio.length
      result ++ (audio.drop sample_start).take (sample_end - sample_start))
    []

/-- `AudioProcessor::extract_speech`; `none` models the energy loop not
terminating. -/
def extract_speech (sqrtFn : ℚ → ℚ) (audio : List ℚ) (thr : ℚ)
    (min_speech_ms padding_ms sr : ℕ) : Option (List ℚ) :=
  if audio = [] then some audio
  else
    let ws := sr / 100
    let hop := sr / 200
    match calculate_energy sqrtFn audio ws hop with
    | none => none
    | some energy =>
        if energy = [] then some audio
        else
          let minf := (min_speech_ms * sr) / (1000 * hop)
          let padf := (padding_ms * sr) / (1000 * hop)
          let segs := findSegments thr minf energy
          if segs = [] then some audio
          else
            let result :=
              concatSegments audio ws hop (mergeSegments padf energy.length segs)
            if result = [] then some audio else some result

/-- C2.  For every non-empty input, whenever `extract_speech` returns: if
no kept segment exists, or the concatenation of the extracted sample
ranges is empty, the original buffer comes back unchanged; and the result
is never empty. -/
theorem extract_speech_fallback (sqrtFn : ℚ → ℚ) (audio : List ℚ) (thr : ℚ)
    (msms padms sr : ℕ) (r energyr : List ℚ)
    (hne : audio ≠ [])
    (hr : extract_speech sqrtFn audio thr msms padms sr = some r)
    (hen : calculate_energy sqrtFn audio (sr / 100) (sr / 200) = some energyr) :
    (findSegments thr ((msms * sr) / (1000 * (sr / 200))) energyr = [] → r = audio) ∧
    (concatSegments audio (sr / 100) (sr / 200)
        (mergeSegments ((padms * sr) / (1000 * (sr / 200))) energyr.length
          (findSegments thr ((msms * sr) / (1000 * (sr / 200))) energyr)) = [] →
      r = audio) ∧
    r ≠ [] := by
  rw [extract_speech, if_neg hne] at hr
  simp only [] at hr
  rw [hen] at hr
  have hr2 :
      (if energyr = [] then some audio
       else
         if findSegments thr ((msms * sr) / (1000 * (sr / 200))) energyr = [] then
           some audio
         else
           if concatSegments audio (sr / 100) (sr / 200)
               (mergeSegments ((padms * sr) / (1000 * (sr / 200))) energyr.length
                 (findSegments thr ((msms * sr) / (1000 * (sr / 200))) energyr)) = []
           then some audio
           else
             some (concatSegments audio (sr / 100) (sr / 200)
               (mergeSegments ((padms * sr) / (1000 * (sr / 200))) energyr.length
                 (findSegments thr ((msms * sr) / (1000 * (sr / 200))) energyr)))) =
        some r := hr
  by_cases hE : energyr = []
  · rw [if_pos hE] at hr2
    have : r = audio := (Option.some_inj.1 hr2).symm
    subst this
    exact ⟨fun _ => rfl, fun _ => rfl, hne⟩
  · rw [if_neg hE] at hr2
    by_cases hseg : findSegments thr ((msms * sr) / (1000 * (sr / 200))) energyr = []
    · rw [if_pos hseg] at hr2
      have : r = audio := (Option.some_inj.1 hr2).symm
      subst this
      exact ⟨fun _ => rfl, fun _ => rfl, hne⟩
    · rw [if_neg hseg] at hr2
      by_cases hres : concatSegments audio (sr / 100) (sr / 200)
          (mergeSegments ((padms * sr) / (1000 * (sr / 200))) energyr.length
            (findSegments thr ((msms * sr) / (1000 * (sr / 200))) energyr)) = []
      · rw [if_pos hres] at hr2
        have : r = audio := (Option.some_inj.1 hr2).symm
        subst this
        exact ⟨fun _ => rfl, fun _ => rfl, hne⟩
      · rw [if_neg hres] at hr2
        have : r = _ := (Option.some_inj.1 hr2).symm
        subst this
        exact ⟨fun h => absurd h hseg, fun h => absurd h hres, hres⟩

theorem extract_speech_eq_of_segments_empty (sqrtFn : ℚ → ℚ) (audio : List ℚ)
    (thr : ℚ) (msms padms sr : ℕ) (energy : List ℚ)
    (hne : audio ≠ [])
    (hen : calculate_energy sqrtFn audio (sr / 100) (sr / 200) = some energy)
    (hE : energy ≠ [])
    (hseg : findSegments thr ((msms * sr) / (1000 * (sr / 200))) energy = []) :
    extract_speech sqrtFn audio thr msms padms sr = some audio := by
  rw [extract_speech, if_neg hne]
  simp only []
  simp only [hen]
  rw [if_neg hE, if_pos hseg]

/-- Witness for C2 at a concrete input: eight zero samples at 400 Hz;
the energy envelope is all zero, no segment is found, and the original
buffer is returned. -/
theorem extract_speech_fallback_witness :
    (([0, 0, 0, 0, 0, 0, 0, 0] : List ℚ) ≠ [] ∧
      extract_speech ratSqrt ([0, 0, 0, 0, 0, 0, 0, 0] : List ℚ) (1/100) 10 5 400 =
        some [0, 0, 0, 0, 0, 0, 0, 0] ∧
      calculate_energy ratSqrt ([0, 0, 0, 0, 0, 0, 0, 0] : List ℚ) (400 / 100)
          (400 / 200) = some [0, 0, 0]) ∧
    ((findSegments (1/100) ((10 * 400) / (1000 * (400 / 200))) [0, 0, 0] = [] →
        ([0, 0, 0, 0, 0, 0, 0, 0] : List ℚ) = [0, 0, 0, 0, 0, 0, 0, 0]) ∧
      (concatSegments ([0, 0, 0, 0, 0, 0, 0, 0] : List ℚ) (400 / 100) (400 / 200)
          (mergeSegments ((5 * 400) / (1000 * (400 / 200)))
            ([0, 0, 0] : List ℚ).length
            (findSegments (1/100) ((10 * 400) / (1000 * (400 / 200))) [0, 0, 0])) =
          [] →
        ([0, 0, 0, 0, 0, 0, 0, 0] : List ℚ) = [0, 0, 0, 0, 0, 0, 0, 0]) ∧
      ([0, 0, 0, 0, 0, 0, 0, 0] : List ℚ) ≠ []) := by
  have hraw : energyRawF ratSqrt ([0, 0, 0, 0, 0, 0, 0, 0] : List ℚ) 4 2 10 0 =
      some [0, 0, 0] := by
    norm_num [energyRawF, windowSumSq, sumSq, ratSqrt]
  have hen : calculate_energy ratSqrt ([0, 0, 0, 0, 0, 0, 0, 0] : List ℚ) (400 / 100)
      (400 / 200) = some [0, 0, 0] := by
    rw [show ((400 : ℕ) / 100) = 4 from rfl, show ((400 : ℕ) / 200) = 2 from rfl,
      calculate_energy, if_neg (by simp),
      show (([0, 0, 0, 0, 0, 0, 0, 0] : List ℚ).length + 2) = 10 from rfl, hraw]
    rfl
  have hseg : findSegments (1/100) ((10 * 400) / (1000 * (400 / 200))) [0, 0, 0] = [] := by
    rw [show (((10 * 400) / (1000 * (400 / 200))) : ℕ) = 2 from rfl]
    norm_num [findSegments, segStep, List.enum, List.enumFrom]
  have hr : extract_speech ratSqrt ([0, 0, 0, 0, 0, 0, 0, 0] : List ℚ) (1/100) 10 5 400 =
      some [0, 0, 0, 0, 0, 0, 0, 0] :=
    extract_speech_eq_of_segments_empty ratSqrt _ _ 10 5 400 [0, 0, 0] (by simp) hen
      (by simp) hseg
  exact ⟨⟨by simp, hr, hen⟩,
    extract_speech_fallback ratSqrt ([0, 0, 0, 0, 0, 0, 0, 0] : List ℚ) (1/100)
      10 5 400 [0, 0, 0, 0, 0, 0, 0, 0] [0, 0, 0] (by simp) hr hen⟩

/- ### Claim theorems for the filter and the gate -/

/-- C4.  The high-pass stage computes its five biquad coefficients by
exactly the stated Butterworth formulas, and `apply_highpass` rewrites
every sample in place so that the i-th output obeys the direct-form
difference equation `y[i] = b0·x[i] + b1·x[i-1] + b2·x[i-2] − a1·y[i-1]
− a2·y[i-2]`, with the two-sample input/output history carried in from
the instance state (indices `i+2`, `i+1`, `i` of the padded sequences
are `x[i]`, `x[i-1]`, `x[i-2]` respectively, and likewise for `y`). -/
theorem highpass_design_and_difference_equation (cos_omega sin_omega : ℚ)
    (st : FiltState) (xs : List ℚ) (i : ℕ) (hi : i < xs.length) :
    design_highpass_filter cos_omega sin_omega =
      specButterworthCoeffs cos_omega sin_omega ∧
    ((apply_highpass (design_highpass_filter cos_omega sin_omega) st xs).1).length =
      xs.length ∧
    ((apply_highpass (design_highpass_filter cos_omega sin_omega) st xs).1).getD i 0 =
      (design_highpass_filter cos_omega sin_omega).b0 * (xpad st xs).getD (i + 2) 0
        + (design_highpass_filter cos_omega sin_omega).b1 * (xpad st xs).getD (i + 1) 0
        + (design_highpass_filter cos_omega sin_omega).b2 * (xpad st xs).getD i 0
        - (design_highpass_filter cos_omega sin_omega).a1 *
            (ypad st
              (apply_highpass (design_highpass_filter cos_omega sin_omega) st xs).1).getD
              (i + 1) 0
        - (design_highpass_filter cos_omega sin_omega).a2 *
            (ypad st
              (apply_highpass (design_highpass_filter cos_omega sin_omega) st xs).1).getD
              i 0 :=
  ⟨rfl, apply_highpass_length _ xs st, apply_highpass_getD _ xs st i hi⟩

/-- Witness for C4 at a concrete input. -/
theorem highpass_difference_equation_witness :
    0 < ([1, 1/2] : List ℚ).length ∧
    (design_highpass_filter (1/2) (1/2) = specButterworthCoeffs (1/2) (1/2) ∧
      ((apply_highpass (design_highpass_filter (1/2) (1/2)) ⟨0, 0, 0, 0⟩
          ([1, 1/2] : List ℚ)).1).length = ([1, 1/2] : List ℚ).length ∧
      ((apply_highpass (design_highpass_filter (1/2) (1/2)) ⟨0, 0, 0, 0⟩
          ([1, 1/2] : List ℚ)).1).getD 0 0 =
        (design_highpass_filter (1/2) (1/2)).b0 *
            (xpad ⟨0, 0, 0, 0⟩ ([1, 1/2] : List ℚ)).getD 2 0
          + (design_highpass_filter (1/2) (1/2)).b1 *
              (xpad ⟨0, 0, 0, 0⟩ ([1, 1/2] : List ℚ)).getD 1 0
          + (design_highpass_filter (1/2) (1/2)).b2 *
              (xpad ⟨0, 0, 0, 0⟩ ([1, 1/2] : List ℚ)).getD 0 0
          - (design_highpass_filter (1/2) (1/2)).a1 *
              (ypad ⟨0, 0, 0, 0⟩
                (apply_highpass (design_highpass_filter (1/2) (1/2)) ⟨0, 0, 0, 0⟩
                  ([1, 1/2] : List ℚ)).1).getD 1 0
          - (design_highpass_filter (1/2) (1/2)).a2 *
              (ypad ⟨0, 0, 0, 0⟩
                (apply_highpass (design_highpass_filter (1/2) (1/2)) ⟨0, 0, 0, 0⟩
                  ([1, 1/2] : List ℚ)).1).getD 0 0) :=
  ⟨by decide,
    highpass_design_and_difference_equation (1/2) (1/2) ⟨0, 0, 0, 0⟩ [1, 1/2] 0
      (by decide)⟩

/-- C5.  `apply_noise_gate` computes the attack/release coefficients as
`1 − exp(−1/(t·sample_rate))`, updates the envelope for the i-th sample by
exponential smoothing toward `|x[i]|` (attack coefficient when `|x[i]|`
exceeds the current envelope, release coefficient otherwise), attenuates
the sample by `(envelope/threshold)²` when the updated envelope is below
the threshold and passes it through unmodified otherwise; the final
envelope state is the envelope after the whole buffer. -/
theorem noise_gate_envelope_and_gating (expFn : ℚ → ℚ) (cfg : Config)
    (sample_rate e0 : ℚ) (xs : List ℚ) (i : ℕ) (hi : i < xs.length) :
    ((apply_noise_gate expFn cfg sample_rate e0 xs).1).length = xs.length ∧
    envAt (1 - expFn (-1 / (cfg.noise_gate_attack * sample_rate)))
        (1 - expFn (-1 / (cfg.noise_gate_release * sample_rate))) e0 xs (i + 1) =
      (if |xs.getD i 0| >
          envAt (1 - expFn (-1 / (cfg.noise_gate_attack * sample_rate)))
            (1 - expFn (-1 / (cfg.noise_gate_release * sample_rate))) e0 xs i
       then
         envAt (1 - expFn (-1 / (cfg.noise_gate_attack * sample_rate)))
             (1 - expFn (-1 / (cfg.noise_gate_release * sample_rate))) e0 xs i
           + (1 - expFn (-1 / (cfg.noise_gate_attack * sample_rate))) *
               (|xs.getD i 0| -
                 envAt (1 - expFn (-1 / (cfg.noise_gate_attack * sample_rate)))
                   (1 - expFn (-1 / (cfg.noise_gate_release * sample_rate))) e0 xs i)
       else
         envAt (1 - expFn (-1 / (cfg.noise_gate_attack * sample_rate)))
             (1 - expFn (-1 / (cfg.noise_gate_release * sample_rate))) e0 xs i
           + (1 - expFn (-1 / (cfg.noise_gate_release * sample_rate))) *
               (|xs.getD i 0| -
                 envAt (1 - expFn (-1 / (cfg.noise_gate_attack * sample_rate)))
                   (1 - expFn (-1 / (cfg.noise_gate_release * sample_rate))) e0 xs i)) ∧
    ((apply_noise_gate expFn cfg sample_rate e0 xs).1).getD i 0 =
      (if envAt (1 - expFn (-1 / (cfg.noise_gate_attack * sample_rate)))
            (1 - expFn (-1 / (cfg.noise_gate_release * sample_rate))) e0 xs (i + 1) <
          cfg.noise_gate_threshold
       then
         xs.getD i 0 *
           ((envAt (1 - expFn (-1 / (cfg.noise_gate_attack * sample_rate)))
                 (1 - expFn (-1 / (cfg.noise_gate_release * sample_rate))) e0 xs (i + 1) /
               cfg.noise_gate_threshold) *
             (envAt (1 - expFn (-1 / (cfg.noise_gate_attack * sample_rate)))
                 (1 - expFn (-1 / (cfg.noise_gate_release * sample_rate))) e0 xs (i + 1) /
               cfg.noise_gate_threshold))
       else xs.getD i 0) ∧
    (apply_noise_gate expFn cfg sample_rate e0 xs).2 =
      envAt (1 - expFn (-1 / (cfg.noise_gate_attack * sample_rate)))
        (1 - expFn (-1 / (cfg.noise_gate_release * sample_rate))) e0 xs xs.length := by
  refine ⟨gateRun_length _ _ _ xs e0, ?_, gateRun_getD _ _ _ xs e0 i hi,
    gateRun_env _ _ _ xs e0⟩
  rw [envAt_succ _ _ xs e0 i hi]
  rfl

/-- Witness for C5 at a concrete input. -/
theorem noise_gate_envelope_witness :
    0 < ([1/2, 1/8] : List ℚ).length ∧
    (((apply_noise_gate (fun _ => 0) {} 16000 0 ([1/2, 1/8] : List ℚ)).1).length =
        ([1/2, 1/8] : List ℚ).length ∧
      envAt (1 - (fun (_ : ℚ) => (0 : ℚ)) (-1 / (Config.noise_gate_attack {} * 16000)))
          (1 - (fun (_ : ℚ) => (0 : ℚ)) (-1 / (Config.noise_gate_release {} * 16000))) 0
          ([1/2, 1/8] : List ℚ) 1 =
        (if |([1/2, 1/8] : List ℚ).getD 0 0| >
            envAt (1 - (fun (_ : ℚ) => (0 : ℚ)) (-1 / (Config.noise_gate_attack {} * 16000)))
              (1 - (fun (_ : ℚ) => (0 : ℚ)) (-1 / (Config.noise_gate_release {} * 16000))) 0
              ([1/2, 1/8] : List ℚ) 0
         then
           envAt (1 - (fun (_ : ℚ) => (0 : ℚ)) (-1 / (Config.noise_gate_attack {} * 16000)))
               (1 - (fun (_ : ℚ) => (0 : ℚ)) (-1 / (Config.noise_gate_release {} * 16000))) 0
               ([1/2, 1/8] : List ℚ) 0
             + (1 - (fun (_ : ℚ) => (0 : ℚ)) (-1 / (Config.noise_gate_attack {} * 16000))) *
                 (|([1/2, 1/8] : List ℚ).getD 0 0| -
                   envAt (1 - (fun (_ : ℚ) => (0 : ℚ)) (-1 / (Config.noise_gate_attack {} * 16000)))
                     (1 - (fun (_ : ℚ) => (0 : ℚ)) (-1 / (Config.noise_gate_release {} * 16000))) 0
                     ([1/2, 1/8] : List ℚ) 0)
         else
           envAt (1 - (fun (_ : ℚ) => (0 : ℚ)) (-1 / (Config.noise_gate_attack {} * 16000)))
               (1 - (fun (_ : ℚ) => (0 : ℚ)) (-1 / (Config.noise_gate_release {} * 16000))) 0
               ([1/2, 1/8] : List ℚ) 0
             + (1 - (fun (_ : ℚ) => (0 : ℚ)) (-1 / (Config.noise_gate_release {} * 16000))) *
                 (|([1/2, 1/8] : List ℚ).getD 0 0| -
                   envAt (1 - (fun (_ : ℚ) => (0 : ℚ)) (-1 / (Config.noise_gate_attack {} * 16000)))
                     (1 - (fun (_ : ℚ) => (0 : ℚ)) (-1 / (Config.noise_gate_release {} * 16000))) 0
                     ([1/2, 1/8] : List ℚ) 0)) ∧
      ((apply_noise_gate (fun _ => 0) {} 16000 0 ([1/2, 1/8] : List ℚ)).1).getD 0 0 =
        (if envAt (1 - (fun (_ : ℚ) => (0 : ℚ)) (-1 / (Config.noise_gate_attack {} * 16000)))
              (1 - (fun (_ : ℚ) => (0 : ℚ)) (-1 / (Config.noise_gate_release {} * 16000))) 0
              ([1/2, 1/8] : List ℚ) 1 < Config.noise_gate_threshold {}
         then
           ([1/2, 1/8] : List ℚ).getD 0 0 *
             ((envAt (1 - (fun (_ : ℚ) => (0 : ℚ)) (-1 / (Config.noise_gate_attack {} * 16000)))
                   (1 - (fun (_ : ℚ) => (0 : ℚ)) (-1 / (Config.noise_gate_release {} * 16000))) 0
                   ([1/2, 1/8] : List ℚ) 1 / Config.noise_gate_threshold {}) *
               (envAt (1 - (fun (_ : ℚ) => (0 : ℚ)) (-1 / (Config.noise_gate_attack {} * 16000)))
                   (1 - (fun (_ : ℚ) => (0 : ℚ)) (-1 / (Config.noise_gate_release {} * 16000))) 0
                   ([1/2, 1/8] : List ℚ) 1 / Config.noise_gate_threshold {}))
         else ([1/2, 1/8] : List ℚ).getD 0 0) ∧
      (apply_noise_gate (fun _ => 0) {} 16000 0 ([1/2, 1/8] : List ℚ)).2 =
        envAt (1 - (fun (_ : ℚ) => (0 : ℚ)) (-1 / (Config.noise_gate_attack {} * 16000)))
          (1 - (fun (_ : ℚ) => (0 : ℚ)) (-1 / (Config.noise_gate_release {} * 16000))) 0
          ([1/2, 1/8] : List ℚ) ([1/2, 1/8] : List ℚ).length) :=
  ⟨by decide,
    noise_gate_envelope_and_gating (fun _ => 0) {} 16000 0 [1/2, 1/8] 0 (by decide)⟩

/- ### Claim theorems for normalization -/

theorem getD_map_of_lt (f : ℚ → ℚ) (l : List ℚ) (i : ℕ) (hi : i < l.length) :
    (l.map f).getD i 0 = f (l.getD i 0) := by
  rw [List.getD_eq_getElem?_getD, List.getD_eq_getElem?_getD, List.getElem?_map,
    List.getElem?_eq_getElem hi]
  rfl

/-- C6.  `apply_normalization` leaves a buffer with peak below `0.001`
untouched; otherwise it multiplies every sample by
`gain = min(target_peak/peak, 10)` and clamps the result into `[-1, 1]`,
and does nothing else (lengths agree, every element is exactly the
clamped scaled sample). -/
theorem normalization_algorithm (cfg : Config) (audio : List ℚ) (i : ℕ)
    (hne : audio ≠ []) (hi : i < audio.length) :
    (peakOf audio < 1/1000 → apply_normalization cfg audio = audio) ∧
    (¬ peakOf audio < 1/1000 →
      (apply_normalization cfg audio).length = audio.length ∧
      (apply_normalization cfg audio).getD i 0 =
        min 1 (max (-1) (audio.getD i 0 * min (cfg.target_peak / peakOf audio) 10))) := by
  constructor
  · intro h
    rw [apply_normalization, if_neg hne, if_pos h]
  · intro h
    rw [apply_normalization, if_neg hne, if_neg h]
    refine ⟨by simp, ?_⟩
    rw [getD_map_of_lt _ audio i hi, clamp1_eq_clamp]

/-- Witness for C6 at a concrete input. -/
theorem normalization_algorithm_witness :
    (([1/2] : List ℚ) ≠ [] ∧ 0 < ([1/2] : List ℚ).length) ∧
    ((peakOf ([1/2] : List ℚ) < 1/1000 →
        apply_normalization defaultConfig ([1/2] : List ℚ) = [1/2]) ∧
      (¬ peakOf ([1/2] : List ℚ) < 1/1000 →
        (apply_normalization defaultConfig ([1/2] : List ℚ)).length =
          ([1/2] : List ℚ).length ∧
        (apply_normalization defaultConfig ([1/2] : List ℚ)).getD 0 0 =
          min 1 (max (-1) (([1/2] : List ℚ).getD 0 0 *
            min (defaultConfig.target_peak / peakOf ([1/2] : List ℚ)) 10)))) :=
  ⟨⟨by simp, by decide⟩,
    normalization_algorithm defaultConfig [1/2] 0 (by simp) (by decide)⟩

theorem foldl_max_map_mul (g : ℚ) (hg : 0 ≤ g) (xs : List ℚ) :
    ∀ a : ℚ, (xs.map (fun s => s * g)).foldl (fun p s => max p |s|) (a * g) =
      (xs.foldl (fun p s => max p |s|) a) * g := by
  induction xs with
  | nil => intro a; rfl
  | cons x xs ih =>
      intro a
      simp only [List.map_cons, List.foldl_cons]
      rw [show |x * g| = |x| * g by rw [abs_mul, abs_of_nonneg hg],
        ← max_mul_of_nonneg _ _ hg, ih (max a |x|)]

theorem peakOf_map_mul (g : ℚ) (hg : 0 ≤ g) (xs : List ℚ) :
    peakOf (xs.map (fun s => s * g)) = peakOf xs * g := by
  rw [peakOf_eq_foldl_max, peakOf_eq_foldl_max]
  have := foldl_max_map_mul g hg xs 0
  rwa [zero_mul] at this

/-- C7 (amended).  For every non-degenerate input (`peak ≥ 0.001`) the
peak after `apply_normalization` is at most `1.0`; and for an input whose
peak is below the target *and at least a tenth of the target* (so the 10×
gain cap does not bind) with `0 < target_peak ≤ 1`, the peak after equals
the target — in particular it lies within `[0.85, 1.0]` of the target. -/
theorem normalization_bounded (cfg : Config) (audio : List ℚ)
    (hne : audio ≠ []) (ht1 : 0 < cfg.target_peak) (ht2 : cfg.target_peak ≤ 1) :
    (1/1000 ≤ peakOf audio → peakOf (apply_normalization cfg audio) ≤ 1) ∧
    (1/1000 ≤ peakOf audio → cfg.target_peak / 10 ≤ peakOf audio →
      peakOf audio < cfg.target_peak →
      peakOf (apply_normalization cfg audio) = cfg.target_peak ∧
      (85/100) * cfg.target_peak ≤ peakOf (apply_normalization cfg audio) ∧
      peakOf (apply_normalization cfg audio) ≤ 1 * cfg.target_peak) := by
  constructor
  · intro h
    rw [apply_normalization, if_neg hne, if_neg (not_lt.2 h)]
    refine peakOf_le _ 1 (by norm_num) ?_
    intro x hx
    rcases List.mem_map.1 hx with ⟨s, _, rfl⟩
    exact abs_clamp1_le_one _
  · intro h h10 hlt
    have hp0 : 0 < peakOf audio := lt_of_lt_of_le (by norm_num) h
    have hgle : cfg.target_peak / peakOf audio ≤ 10 := by
      rw [div_le_iff₀ hp0]
      have : cfg.target_peak ≤ peakOf audio * 10 := by
        have := (div_le_iff₀ (by norm_num : (0:ℚ) < 10)).1 h10
        linarith
      linarith
    have hgmin : min (cfg.target_peak / peakOf audio) 10 =
        cfg.target_peak / peakOf audio := min_eq_left hgle
    have hgpos : 0 ≤ min (cfg.target_peak / peakOf audio) 10 := by
      rw [hgmin]; positivity
    have hmap : audio.map
          (fun s => clamp1 (s * min (cfg.target_peak / peakOf audio) 10)) =
        audio.map (fun s => s * min (cfg.target_peak / peakOf audio) 10) := by
      refine List.map_congr_left ?_
      intro s hs
      refine clamp1_of_abs_le_one _ ?_
      have h1 : |s * min (cfg.target_peak / peakOf audio) 10| =
          |s| * min (cfg.target_peak / peakOf audio) 10 := by
        rw [abs_mul, abs_of_nonneg hgpos]
      rw [h1, hgmin]
      have h2 : |s| ≤ peakOf audio := abs_le_peakOf audio s hs
      have h3 : |s| * (cfg.target_peak / peakOf audio) ≤
          peakOf audio * (cfg.target_peak / peakOf audio) :=
        mul_le_mul_of_nonneg_right h2 (by positivity)
      have h4 : peakOf audio * (cfg.target_peak / peakOf audio) = cfg.target_peak := by
        rw [mul_comm, div_mul_cancel₀ _ (ne_of_gt hp0)]
      linarith
    have hpeak : peakOf (apply_normalization cfg audio) = cfg.target_peak := by
      rw [apply_normalization, if_neg hne, if_neg (not_lt.2 h), hmap,
        peakOf_map_mul _ hgpos, hgmin, mul_comm, div_mul_cancel₀ _ (ne_of_gt hp0)]
    refine ⟨hpeak, ?_, ?_⟩
    · rw [hpeak]; nlinarith
    · rw [hpeak]; linarith

/-- Witness for C7 at a concrete input. -/
theorem normalization_bounded_witness :
    (([1/2] : List ℚ) ≠ [] ∧ 0 < defaultConfig.target_peak ∧
      defaultConfig.target_peak ≤ 1) ∧
    ((1/1000 ≤ peakOf ([1/2] : List ℚ) →
        peakOf (apply_normalization defaultConfig ([1/2] : List ℚ)) ≤ 1) ∧
      (1/1000 ≤ peakOf ([1/2] : List ℚ) →
        defaultConfig.target_peak / 10 ≤ peakOf ([1/2] : List ℚ) →
        peakOf ([1/2] : List ℚ) < defaultConfig.target_peak →
        peakOf (apply_normalization defaultConfig ([1/2] : List ℚ)) =
          defaultConfig.target_peak ∧
        (85/100) * defaultConfig.target_peak ≤
          peakOf (apply_normalization defaultConfig ([1/2] : List ℚ)) ∧
        peakOf (apply_normalization defaultConfig ([1/2] : List ℚ)) ≤
          1 * defaultConfig.target_peak)) :=
  ⟨⟨by simp, by norm_num [defaultConfig], by norm_num [defaultConfig]⟩,
    normalization_bounded defaultConfig [1/2] (by simp)
      (by norm_num [defaultConfig]) (by norm_num [defaultConfig])⟩

/-- Counterexample to C7 as stated: the buffer `[0.002]` is non-degenerate
(peak `0.002 ≥ 0.001`) and its peak is below the default target `0.9`, but
the 10× gain cap limits the result to peak `0.02`, far outside
`[0.85, 1.0]` of the target. -/
theorem normalization_gain_cap_counterexample :
    peakOf ([1/500] : List ℚ) = 1/500 ∧
    (1/1000 : ℚ) ≤ peakOf ([1/500] : List ℚ) ∧
    peakOf ([1/500] : List ℚ) < defaultConfig.target_peak ∧
    apply_normalization defaultConfig ([1/500] : List ℚ) = [1/50] ∧
    ¬ ((85/100) * defaultConfig.target_peak ≤
        peakOf (apply_normalization defaultConfig ([1/500] : List ℚ))) := by
  have hmap : apply_normalization defaultConfig ([1/500] : List ℚ) = [1/50] := by
    rw [apply_normalization]
    norm_num [peakOf, defaultConfig, clamp1, abs_of_pos, min_def]
  refine ⟨by norm_num [peakOf, abs_of_pos], by norm_num [peakOf, abs_of_pos],
    by norm_num [peakOf, defaultConfig, abs_of_pos], hmap, ?_⟩
  rw [hmap]
  norm_num [peakOf, defaultConfig, abs_of_pos]

/- ### Claim theorem for AGC -/

/-- C8.  `apply_agc` leaves the buffer unchanged when the RMS is below
`0.0001`; otherwise it multiplies every sample by the clamped gain
`max(min_gain, min(target_rms/rms, max_gain))` and replaces every result
whose magnitude exceeds `0.9` by `0.9·tanh(·/0.9)`; the peak after AGC is
at most `1.0` (given `|tanh| ≤ 1` and an input within `[-1, 1]`); and for
a quiet input — gain above one with no sample reaching the compressor
knee, and the RMS scaling homogeneously — the RMS strictly increases. -/
theorem agc_spec (sqrtFn tanhFn : ℚ → ℚ) (cfg : Config) (audio : List ℚ)
    (hne : audio ≠ [])
    (htanh : ∀ x, |tanhFn x| ≤ 1)
    (hbound : peakOf audio ≤ 1) :
    (agcRms sqrtFn audio < 1/10000 → apply_agc sqrtFn tanhFn cfg audio = audio) ∧
    (¬ agcRms sqrtFn audio < 1/10000 →
      apply_agc sqrtFn tanhFn cfg audio =
        audio.map (fun s =>
          if |s * agcGain sqrtFn cfg audio| > 9/10
          then (9/10) * tanhFn ((s * agcGain sqrtFn cfg audio) / (9/10))
          else s * agcGain sqrtFn cfg audio) ∧
      agcGain sqrtFn cfg audio =
        max cfg.agc_min_gain
          (min (cfg.agc_target_rms / agcRms sqrtFn audio) cfg.agc_max_gain)) ∧
    peakOf (apply_agc sqrtFn tanhFn cfg audio) ≤ 1 ∧
    (¬ agcRms sqrtFn audio < 1/10000 →
      1 < agcGain sqrtFn cfg audio →
      apply_agc sqrtFn tanhFn cfg audio =
        audio.map (fun s => s * agcGain sqrtFn cfg audio) →
      sqrtFn (sumSq (audio.map (fun s => s * agcGain sqrtFn cfg audio)) /
          (audio.length : ℚ)) =
        agcGain sqrtFn cfg audio * agcRms sqrtFn audio →
      agcRms sqrtFn audio <
        sqrtFn (sumSq (apply_agc sqrtFn tanhFn cfg audio) / (audio.length : ℚ))) := by
  refine ⟨?_, ?_, ?_, ?_⟩
  · intro h
    rw [apply_agc, if_neg hne, if_pos h]
  · intro h
    rw [apply_agc, if_neg hne, if_neg h]
    exact ⟨rfl, rfl⟩
  · by_cases h : agcRms sqrtFn audio < 1/10000
    · rw [apply_agc, if_neg hne, if_pos h]
      exact hbound
    · rw [apply_agc, if_neg hne, if_neg h]
      refine peakOf_le _ 1 (by norm_num) ?_
      intro x hx
      rcases List.mem_map.1 hx with ⟨s, _, rfl⟩
      unfold agcCompress
      by_cases hc : |s * agcGain sqrtFn cfg audio| > 9/10
      · rw [if_pos hc, abs_mul, abs_of_nonneg (by norm_num : (0:ℚ) ≤ 9/10)]
        have := htanh ((s * agcGain sqrtFn cfg audio) / (9/10))
        nlinarith [this, abs_nonneg (tanhFn ((s * agcGain sqrtFn cfg audio) / (9/10)))]
      · rw [if_neg hc]
        push_neg at hc
        linarith
  · intro h hg hmapeq hhom
    rw [hmapeq, hhom]
    have hrms : 1/10000 ≤ agcRms sqrtFn audio := not_lt.1 h
    nlinarith [hrms, hg]

/-- Witness for C8 at a concrete input: two samples of `0.1` with the
default configuration, exact square roots, and the zero function for
`tanh` (never invoked since no sample reaches the knee). -/
theorem agc_spec_witness :
    (([1/10, 1/10] : List ℚ) ≠ [] ∧
      (∀ x : ℚ, |(fun _ : ℚ => (0 : ℚ)) x| ≤ 1) ∧
      peakOf ([1/10, 1/10] : List ℚ) ≤ 1) ∧
    ((agcRms ratSqrt ([1/10, 1/10] : List ℚ) < 1/10000 →
        apply_agc ratSqrt (fun _ => 0) defaultConfig ([1/10, 1/10] : List ℚ) =
          [1/10, 1/10]) ∧
      (¬ agcRms ratSqrt ([1/10, 1/10] : List ℚ) < 1/10000 →
        apply_agc ratSqrt (fun _ => 0) defaultConfig ([1/10, 1/10] : List ℚ) =
          ([1/10, 1/10] : List ℚ).map (fun s =>
            if |s * agcGain ratSqrt defaultConfig ([1/10, 1/10] : List ℚ)| > 9/10
            then (9/10) * (fun _ : ℚ => (0 : ℚ))
              ((s * agcGain ratSqrt defaultConfig ([1/10, 1/10] : List ℚ)) / (9/10))
            else s * agcGain ratSqrt defaultConfig ([1/10, 1/10] : List ℚ)) ∧
        agcGain ratSqrt defaultConfig ([1/10, 1/10] : List ℚ) =
          max defaultConfig.agc_min_gain
            (min (defaultConfig.agc_target_rms /
                agcRms ratSqrt ([1/10, 1/10] : List ℚ))
              defaultConfig.agc_max_gain)) ∧
      peakOf (apply_agc ratSqrt (fun _ => 0) defaultConfig ([1/10, 1/10] : List ℚ)) ≤ 1 ∧
      (¬ agcRms ratSqrt ([1/10, 1/10] : List ℚ) < 1/10000 →
        1 < agcGain ratSqrt defaultConfig ([1/10, 1/10] : List ℚ) →
        apply_agc ratSqrt (fun _ => 0) defaultConfig ([1/10, 1/10] : List ℚ) =
          ([1/10, 1/10] : List ℚ).map
            (fun s => s * agcGain ratSqrt defaultConfig ([1/10, 1/10] : List ℚ)) →
        ratSqrt (sumSq (([1/10, 1/10] : List ℚ).map
              (fun s => s * agcGain ratSqrt defaultConfig ([1/10, 1/10] : List ℚ))) /
            (([1/10, 1/10] : List ℚ).length : ℚ)) =
          agcGain ratSqrt defaultConfig ([1/10, 1/10] : List ℚ) *
            agcRms ratSqrt ([1/10, 1/10] : List ℚ) →
        agcRms ratSqrt ([1/10, 1/10] : List ℚ) <
          ratSqrt (sumSq (apply_agc ratSqrt (fun _ => 0) defaultConfig
              ([1/10, 1/10] : List ℚ)) / (([1/10, 1/10] : List ℚ).length : ℚ)))) :=
  ⟨⟨by simp, fun x => by norm_num, by norm_num [peakOf, abs_of_pos, max_def]⟩,
    agc_spec ratSqrt (fun _ => 0) defaultConfig [1/10, 1/10] (by simp)
      (fun x => by norm_num) (by norm_num [peakOf, abs_of_pos, max_def])⟩

theorem sumSq_replicate_zero (k : ℕ) : sumSq (List.replicate k (0 : ℚ)) = 0 := by
  induction k with
  | zero => simp [sumSq]
  | succ n ih => rw [List.replicate_succ, sumSq_cons, ih]; ring

/-- The AGC run on a single `0.95` spike followed by 9024 zero samples,
with the default configuration, `sqrt` evaluated at its one call site
(the RMS is exactly `1/100`, see the counterexample below) and `tanh`
returning an arbitrary value `t` at its one call site: the RMS is above
the skip floor, the gain clamps to the maximum `10`, the spike crosses
the `0.9` knee and is compressed to `0.9·t`, the zeros pass through. -/
theorem apply_agc_spike_run (t : ℚ) :
    apply_agc (fun _ => 1/100) (fun _ => t) defaultConfig
        ((19/20 : ℚ) :: List.replicate 9024 0) =
      ((9/10) * t) :: List.replicate 9024 0 := by
  rw [apply_agc, if_neg (List.cons_ne_nil _ _), if_neg (by norm_num [agcRms])]
  have hg : agcGain (fun _ => 1/100) defaultConfig
      ((19/20 : ℚ) :: List.replicate 9024 0) = 10 := by
    norm_num [agcGain, agcRms, defaultConfig, min_def, max_def]
  rw [hg, List.map_cons, List.map_replicate]
  congr 1
  · norm_num [agcCompress, abs_of_pos]
  · show List.replicate 9024 (agcCompress (fun _ => t) (0 * 10)) = List.replicate 9024 0
    congr 1
    norm_num [agcCompress]

/-- Whatever value `tanh` takes at the knee — as long as its magnitude is
at most one, as the real `tanh` satisfies — the energy of the spike
buffer after AGC is at most `0.81`, below the input energy `0.9025`. -/
theorem agc_spike_sumSq_le (t : ℚ) (ht : |t| ≤ 1) :
    sumSq (apply_agc (fun _ => 1/100) (fun _ => t) defaultConfig
        ((19/20 : ℚ) :: List.replicate 9024 0)) ≤ 81/100 := by
  rw [apply_agc_spike_run t, sumSq_cons, sumSq_replicate_zero]
  have h2 : t * t ≤ 1 := by nlinarith [abs_nonneg t, sq_abs t, ht]
  nlinarith [h2]

/-- Counterexample to C8's quiet-input part as stated: the buffer
`[0.95, 0, …, 0]` (9025 samples, default configuration) has RMS exactly
`1/100` — well below the target `0.2` and above the `0.0001` floor, so it
is a quiet input in the claim's sense — yet the clamped gain `10` drives
the spike through the `0.9·tanh` compressor, the output energy drops from
`0.9025` to at most `0.81`, and the RMS strictly *decreases* (shown both
on the embedded buffers and for the true real-valued square root). -/
theorem agc_quiet_rms_decrease_counterexample :
    sumSq ((19/20 : ℚ) :: List.replicate 9024 0) = 361/400 ∧
    ((19/20 : ℚ) :: List.replicate 9024 0).length = 9025 ∧
    Real.sqrt (((sumSq ((19/20 : ℚ) :: List.replicate 9024 0) : ℚ) : ℝ) /
        ((((19/20 : ℚ) :: List.replicate 9024 0).length : ℕ) : ℝ)) = 1/100 ∧
    agcRms (fun _ => 1/100) ((19/20 : ℚ) :: List.replicate 9024 0) = 1/100 ∧
    (1/10000 : ℚ) ≤ 1/100 ∧ (1/100 : ℚ) < defaultConfig.agc_target_rms ∧
    agcGain (fun _ => 1/100) defaultConfig
        ((19/20 : ℚ) :: List.replicate 9024 0) = 10 ∧
    apply_agc (fun _ => 1/100) (fun _ => 1) defaultConfig
        ((19/20 : ℚ) :: List.replicate 9024 0) =
      ((9/10) * 1) :: List.replicate 9024 0 ∧
    sumSq (apply_agc (fun _ => 1/100) (fun _ => 1) defaultConfig
        ((19/20 : ℚ) :: List.replicate 9024 0)) <
      sumSq ((19/20 : ℚ) :: List.replicate 9024 0) ∧
    Real.sqrt ((sumSq (apply_agc (fun _ => 1/100) (fun _ => 1) defaultConfig
          ((19/20 : ℚ) :: List.replicate 9024 0)) : ℝ) / 9025) <
      Real.sqrt ((sumSq ((19/20 : ℚ) :: List.replicate 9024 0) : ℝ) / 9025) := by
  have h1 : sumSq ((19/20 : ℚ) :: List.replicate 9024 0) = 361/400 := by
    rw [sumSq_cons, sumSq_replicate_zero]
    norm_num
  have h2 : ((19/20 : ℚ) :: List.replicate 9024 0).length = 9025 := by
    rw [List.length_cons, List.length_replicate]
  have hsum : sumSq (apply_agc (fun _ => 1/100) (fun _ => 1) defaultConfig
      ((19/20 : ℚ) :: List.replicate 9024 0)) = 81/100 := by
    rw [apply_agc_spike_run 1, sumSq_cons, sumSq_replicate_zero]
    norm_num
  refine ⟨h1, h2, ?_, rfl, by norm_num, by norm_num [defaultConfig],
    by norm_num [agcGain, agcRms, defaultConfig, min_def, max_def],
    apply_agc_spike_run 1, ?_, ?_⟩
  · rw [h1, h2]
    have hv : (((361/400 : ℚ) : ℝ)) / ((9025 : ℕ) : ℝ) = (1/100 : ℝ) ^ 2 := by
      push_cast
      norm_num
    rw [hv, Real.sqrt_sq (by norm_num : (0:ℝ) ≤ 1/100)]
  · exact lt_of_le_of_lt (agc_spike_sumSq_le 1 (by norm_num)) (by rw [h1]; norm_num)
  · rw [hsum, h1]
    push_cast
    exact Real.sqrt_lt_sqrt (by positivity) (by norm_num)

/- ### The processing pipeline -/

/-- The mutable state of an `AudioProcessor` instance: the biquad history
registers and the gate envelope `gate_env_`. -/
structure ProcState where
  filt : FiltState
  gate_env : ℚ
deriving DecidableEq

/-- `AudioProcessor::process`: the four enabled stages applied to the
buffer in source order, threading the filter and gate state. -/
def process (sqrtFn tanhFn expFn : ℚ → ℚ) (c : Coeffs) (cfg : Config)
    (sample_rate : ℚ) (st : ProcState) (audio : List ℚ) : List ℚ × ProcState :=
  if audio = [] then (audio, st)
  else
    let hp := if cfg.enable_highpass then apply_highpass c st.filt audio
              else (audio, st.filt)
    let ng := if cfg.enable_noise_gate then
                apply_noise_gate expFn cfg sample_rate st.gate_env hp.1
              else (hp.1, st.gate_env)
    let ag := if cfg.enable_agc then apply_agc sqrtFn tanhFn cfg ng.1 else ng.1
    let nm := if cfg.enable_normalization then apply_normalization cfg ag else ag
    (nm, ⟨hp.2, ng.2⟩)

/-- The high-pass stage as the specification describes the pipeline:
applied iff enabled, updating only the filter registers. -/
def specStageHighpass (c : Coeffs) (cfg : Config) (p : List ℚ × ProcState) :
    List ℚ × ProcState :=
  if cfg.enable_highpass then
    ((apply_highpass c p.2.filt p.1).1,
      ⟨(apply_highpass c p.2.filt p.1).2, p.2.gate_env⟩)
  else p

/-- The noise-gate stage of the spec pipeline: applied iff enabled,
updating only the gate envelope. -/
def specStageGate (expFn : ℚ → ℚ) (cfg : Config) (sample_rate : ℚ)
    (p : List ℚ × ProcState) : List ℚ × ProcState :=
  if cfg.enable_noise_gate then
    ((apply_noise_gate expFn cfg sample_rate p.2.gate_env p.1).1,
      ⟨p.2.filt, (apply_noise_gate expFn cfg sample_rate p.2.gate_env p.1).2⟩)
  else p

/-- The AGC stage of the spec pipeline: applied iff enabled, stateless. -/
def specStageAGC (sqrtFn tanhFn : ℚ → ℚ) (cfg : Config)
    (p : List ℚ × ProcState) : List ℚ × ProcState :=
  if cfg.enable_agc then (apply_agc sqrtFn tanhFn cfg p.1, p.2) else p

/-- The normalization stage of the spec pipeline: applied iff enabled,
stateless. -/
def specStageNorm (cfg : Config) (p : List ℚ × ProcState) : List ℚ × ProcState :=
  if cfg.enable_normalization then (apply_normalization cfg p.1, p.2) else p

/-- C3.  On every non-empty buffer, `process` is exactly the composition
high-pass → noise gate → AGC → normalization, each stage applied iff its
enable flag is set — no other stage and no other order. -/
theorem process_stage_order (sqrtFn tanhFn expFn : ℚ → ℚ) (c : Coeffs)
    (cfg : Config) (sample_rate : ℚ) (st : ProcState) (audio : List ℚ)
    (hne : audio ≠ []) :
    process sqrtFn tanhFn expFn c cfg sample_rate st audio =
      specStageNorm cfg (specStageAGC sqrtFn tanhFn cfg
        (specStageGate expFn cfg sample_rate
          (specStageHighpass c cfg (audio, st)))) := by
  rw [process, if_neg hne]
  by_cases h1 : cfg.enable_highpass <;>
    by_cases h2 : cfg.enable_noise_gate <;>
      by_cases h3 : cfg.enable_agc <;>
        by_cases h4 : cfg.enable_normalization <;>
          simp [specStageHighpass, specStageGate, specStageAGC, specStageNorm,
            h1, h2, h3, h4]

/-- Witness for C3 at a concrete input. -/
theorem process_stage_order_witness :
    ([1/4] : List ℚ) ≠ [] ∧
    process ratSqrt (fun _ => 0) (fun _ => 0) ⟨1, 0, 0, 0, 0⟩ defaultConfig 16000
        ⟨⟨0, 0, 0, 0⟩, 0⟩ ([1/4] : List ℚ) =
      specStageNorm defaultConfig (specStageAGC ratSqrt (fun _ => 0) defaultConfig
        (specStageGate (fun _ => 0) defaultConfig 16000
          (specStageHighpass ⟨1, 0, 0, 0, 0⟩ defaultConfig
            (([1/4] : List ℚ), ⟨⟨0, 0, 0, 0⟩, 0⟩)))) :=
  ⟨by simp,
    process_stage_order ratSqrt (fun _ => 0) (fun _ => 0) ⟨1, 0, 0, 0, 0⟩
      defaultConfig 16000 ⟨⟨0, 0, 0, 0⟩, 0⟩ [1/4] (by simp)⟩

/-- C10.  On an empty buffer, `trim_silence` and `extract_speech` return
the empty input itself, and `process` returns immediately with every
filter and gate state register unchanged. -/
theorem empty_buffer_passthrough (sqrtFn tanhFn expFn : ℚ → ℚ) (c : Coeffs)
    (cfg : Config) (sample_rate thr : ℚ) (st : ProcState)
    (mss sr msms padms sr2 : ℕ) :
    trim_silence [] thr mss sr = some [] ∧
    extract_speech sqrtFn [] thr msms padms sr2 = some [] ∧
    process sqrtFn tanhFn expFn c cfg sample_rate st [] = ([], st) :=
  ⟨rfl, rfl, rfl⟩

end Whispr
